import Mathlib

open scoped List

/-!
Shallow embedding of the native backend of the `hellobellohellobello`
pc_controller repository (src/pc_controller/native_backend/native_backend.cpp):
the SPSC drop-oldest sample ring (`SpscRing`), the Shimmer stream controller
(`NativeShimmer`), the webcam frame loop (`NativeWebcam`), and the simulated
GSR sampling loop.  C++ `double` values are modelled as exact rationals;
the unbounded 64-bit `size_t` counters (which never wrap in practice, per the
spec) are modelled as `Nat`.
-/

namespace NativeBackend

/-- A sample as stored in the ring: `(timestamp seconds, value)`.
The C++ ring stores the two doubles interleaved in one array of `2*cap`
doubles; we model each slot as a pair, which is the same data. -/
abbrev Sample := ℚ × ℚ

/-- The loop body of `SpscRing::next_pow2` (`while (p < v) p <<= 1`),
expressed with an explicit fuel argument; `fuel = v` iterations always
suffice to leave the loop (proved below via `v ≤ 2 ^ v`). -/
def next_pow2_go : Nat → Nat → Nat → Nat
  | 0, _, p => p
  | fuel + 1, v, p => if p < v then next_pow2_go fuel v (p * 2) else p

/-- Embeds `SpscRing::next_pow2`: smallest power of two `p ≥ v`, starting from 1. -/
def next_pow2 (v : Nat) : Nat := next_pow2_go v v 1

/-- State of the C++ `SpscRing`: capacity (already rounded to a power of two
by the constructor), `mask = cap - 1`, the slot array, and the two unbounded
monotone counters. -/
structure SpscRing where
  cap : Nat
  mask : Nat
  buf : List Sample
  head : Nat
  tail : Nat

/-- Default slot content (the C++ buffer is zero-initialised). -/
def d0 : Sample := ((0 : ℚ), (0 : ℚ))

/-- The `SpscRing(capacity)` constructor: `_cap = next_pow2(capacity)`,
`_mask = _cap - 1`, zero-initialised buffer, `_head = _tail = 0`. -/
def SpscRing.init (capacity : Nat) : SpscRing :=
  let c := next_pow2 capacity
  { cap := c, mask := c - 1, buf := List.replicate c d0,
    head := 0, tail := 0 }

/-- Embeds `SpscRing::push(t, v)`: write at slot `head & mask`, advance `head`
(the source's local `n = h + 1`); if the unread span would exceed `cap`,
advance `tail` to `head + 1 - cap` (drop-oldest). -/
def SpscRing.push (r : SpscRing) (t v : ℚ) : SpscRing :=
  { r with
    buf := r.buf.set (r.head &&& r.mask) (t, v),
    head := r.head + 1,
    tail := if r.head + 1 - r.tail > r.cap then r.head + 1 - r.cap else r.tail }

/-- Embeds `SpscRing::pop_all()`: read every slot from `tail` (inclusive) to `head`
(exclusive) in order, then advance `tail` to `head`.  Returns the popped
samples together with the new ring state. -/
def SpscRing.pop_all (r : SpscRing) : List Sample × SpscRing :=
  ((List.range (r.head - r.tail)).map
      (fun i => r.buf.getD ((r.tail + i) &&& r.mask) d0),
   { r with tail := r.head })

/-- Push a whole list of samples in order (repeated `push`). -/
def SpscRing.pushList (r : SpscRing) (xs : List Sample) : SpscRing :=
  xs.foldl (fun a x => a.push x.1 x.2) r

/-- One interface operation on the ring: a producer `push` or a consumer
`pop_all`. -/
inductive Op
  | push (t v : ℚ)
  | popAll

/-- Run a list of operations; returns the final ring state and the list of
sample sequences returned by the successive `pop_all` calls, in call order. -/
def runOps (r : SpscRing) : List Op → SpscRing × List (List Sample)
  | [] => (r, [])
  | Op.push t v :: rest => runOps (r.push t v) rest
  | Op.popAll :: rest =>
    ((runOps (r.pop_all).2 rest).1,
     (r.pop_all).1 :: (runOps (r.pop_all).2 rest).2)

/-- All samples pushed by an operation sequence, in push order. -/
def pushedOf : List Op → List Sample
  | [] => []
  | Op.push t v :: rest => (t, v) :: pushedOf rest
  | Op.popAll :: rest => pushedOf rest

/-- Means `pop_all` is called at least once per `cap` pushes: starting with `k`
pushes outstanding since the last pop, the outstanding count never
exceeds `cap`. -/
def timely (cap : Nat) : Nat → List Op → Bool
  | _, [] => true
  | k, Op.push _ _ :: rest => decide (k + 1 ≤ cap) && timely cap (k + 1) rest
  | _, Op.popAll :: rest => timely cap 0 rest

/-- Structural well-formedness of a ring state, as established by the
constructor and preserved by `push` and `pop_all`. -/
structure SpscRing.WF (r : SpscRing) : Prop where
  pow : ∃ k, r.cap = 2 ^ k
  mask_eq : r.mask = r.cap - 1
  len : r.buf.length = r.cap
  ht : r.tail ≤ r.head
  bound : r.head - r.tail ≤ r.cap

/-- The ring's unread window agrees with the full push history `P`:
`head` counts all pushes ever made, and every unread index `i` (between
`tail` and `head`) is stored at slot `i % cap`. -/
def SpscRing.Window (r : SpscRing) (P : List Sample) : Prop :=
  r.head = P.length ∧
  ∀ i, r.tail ≤ i → i < r.head → r.buf.getD (i % r.cap) d0 = P.getD i d0

/-- Error taxonomy of the stream controller.  The C++ code throws
`std::runtime_error` in both places; the spec names the two failures
`ConnectionError` (from `connect`) and `NotConnectedError` (from
`start`). -/
inductive ShimmerError
  | connectionError
  | notConnectedError
deriving DecidableEq

/-- State of `NativeShimmer`: the recorded `_port`, `_connected`,
`_running`, the sample `_queue`, and whether `_thread` currently holds a
joinable execution context.  `spawns` is ghost instrumentation counting how
many `std::thread` contexts `start_streaming` has ever constructed; it
changes exactly when the code spawns a thread. -/
structure NativeShimmer where
  port : String
  connected : Bool
  running : Bool
  queue : SpscRing
  threadJoinable : Bool
  spawns : Nat

/-- The `NativeShimmer()` constructor: `_running(false)`, `_queue(4096)`,
`_connected(false)`. -/
def NativeShimmer.mk0 : NativeShimmer :=
  { port := "", connected := false, running := false,
    queue := SpscRing.init 4096, threadJoinable := false, spawns := 0 }

/-- Embeds `NativeShimmer::connect(port)`: records the port, then
`_connected = (port != "FAIL")` (simulated connection), and throws —
modelled as `some connectionError` — when that is false.  Note the state is
mutated even on the failing call, exactly as in the C++ code. -/
def NativeShimmer.connect (s : NativeShimmer) (port : String) :
    NativeShimmer × Option ShimmerError :=
  if port != "FAIL" then
    ({ s with port := port, connected := true }, none)
  else
    ({ s with port := port, connected := false },
     some ShimmerError.connectionError)

/-- Embeds `NativeShimmer::start_streaming()`: throws `NotConnectedError` when not
connected; returns without doing anything when already running; otherwise
sets `_running` and spawns the sampling thread. -/
def NativeShimmer.start_streaming (s : NativeShimmer) :
    NativeShimmer × Option ShimmerError :=
  if s.connected = false then (s, some ShimmerError.notConnectedError)
  else if s.running then (s, none)
  else
    ({ s with
        running := true
        threadJoinable := true
        spawns := s.spawns + 1 }, none)

/-- Embeds `NativeShimmer::stop_streaming()`: always succeeds (it returns no
error by construction) — stores `_running = false`, then joins the thread
if it is joinable. -/
def NativeShimmer.stop_streaming (s : NativeShimmer) : NativeShimmer :=
  if s.threadJoinable then { s with running := false, threadJoinable := false }
  else { s with running := false }

/-- Embeds `NativeShimmer::get_latest_samples()`: it is `_queue.pop_all()`. -/
def NativeShimmer.get_latest_samples (s : NativeShimmer) :
    List Sample × NativeShimmer :=
  ((s.queue.pop_all).1, { s with queue := (s.queue.pop_all).2 })

/-- Embeds `NativeShimmer::is_connected()`. -/
def NativeShimmer.is_connected (s : NativeShimmer) : Bool := s.connected

/-- A lifecycle call made by the binding-layer caller. -/
inductive LifeOp
  | connect (port : String)
  | start
  | stop

/-- Run a sequence of lifecycle calls (discarding returned errors). -/
def NativeShimmer.runLife (s : NativeShimmer) : List LifeOp → NativeShimmer
  | [] => s
  | LifeOp.connect p :: rest => NativeShimmer.runLife (s.connect p).1 rest
  | LifeOp.start :: rest => NativeShimmer.runLife (s.start_streaming).1 rest
  | LifeOp.stop :: rest => NativeShimmer.runLife s.stop_streaming rest

/-- A video frame as copied into the shared buffer: raw interleaved
3-channel bytes (already resized/colour-converted by the capture path). -/
abbrev Frame := List Nat

/-- State of `NativeWebcam`: fixed dimensions and the shared frame
buffer. -/
structure NativeWebcam where
  device_id : Int
  width : Nat
  height : Nat
  buffer : Frame

/-- The `NativeWebcam(device_id)` constructor: 640×480, zero-filled
`width·height·3` byte buffer. -/
def NativeWebcam.mk0 (device_id : Int) : NativeWebcam :=
  { device_id := device_id, width := 640, height := 480,
    buffer := List.replicate (640 * 480 * 3) 0 }

/-- One cycle of `NativeWebcam::run_loop` in the camera path: a successful
acquisition (`cap.read` returned a non-empty frame, here `some bytes` after
resize/colour conversion) copies the bytes into the shared buffer under the
mutex; a failed acquisition (`none`) sleeps briefly and writes nothing. -/
def NativeWebcam.run_cycle (w : NativeWebcam) (acq : Option Frame) :
    NativeWebcam :=
  match acq with
  | none => w
  | some f => { w with buffer := f }

/-- Run several capture cycles with the given acquisition outcomes. -/
def NativeWebcam.run_cycles (w : NativeWebcam) (acqs : List (Option Frame)) :
    NativeWebcam :=
  acqs.foldl NativeWebcam.run_cycle w

/-- Embeds `NativeWebcam::get_latest_frame()`: a (zero-copy view of) the shared
buffer. -/
def NativeWebcam.get_latest_frame (w : NativeWebcam) : Frame := w.buffer

/-- The 32-bit LCG step of the sampling loop:
`_rng = 1664525u * _rng + 1013904223u` on a `uint32_t`. -/
def lcg_next (r : Nat) : Nat := (1664525 * r + 1013904223) % 2 ^ 32

/-- One GSR value as computed by `NativeShimmer::run_loop` from the current
phase and the already-updated RNG state: slow drift + respiratory +
cardiac sine components plus LCG noise, clamped from below by
`std::max(0.1, ·)` ("Ensure positive values").  `sin` abstracts `std::sin`
(an arbitrary function: only the clamp matters for the lower bound); the
double literals are modelled as exact rationals. -/
def gsr_value (sin : ℚ → ℚ) (phase : ℚ) (rng : Nat) : ℚ :=
  max (1 / 10)
    (8 + 2 * sin (phase * (1 / 10)) + (3 / 2) * sin (phase * (1 / 2)) +
      (1 / 2) * sin (phase * 2) +
      (((rng >>> 16 : Nat) : ℚ) / 32768 - 1) * (2 / 10))

/-- The double constant `two_pi = 6.283185307179586` of `run_loop`. -/
def two_pi : ℚ := 6283185307179586 / 1000000000000000

/-- The per-iteration phase update of `run_loop`: `phase += 2π·dt` with
`dt = 1/128`, wrapped back by `2π` once it exceeds `2π`. -/
def phase_step (phase : ℚ) : ℚ :=
  if phase + two_pi * (1 / 128) > two_pi then
    phase + two_pi * (1 / 128) - two_pi
  else phase + two_pi * (1 / 128)

/-- The samples pushed by `NativeShimmer::run_loop` over the iterations
that pass the deadline check, given their `Clock::now()` timestamps `ts`,
threading the phase and RNG state exactly as the loop body does. -/
def loop_samples (sin : ℚ → ℚ) : List ℚ → ℚ → Nat → List Sample
  | [], _, _ => []
  | t :: ts, phase, rng =>
    (t, gsr_value sin phase (lcg_next rng)) ::
      loop_samples sin ts (phase_step phase) (lcg_next rng)

@[simp] theorem SpscRing.push_cap (r : SpscRing) (t v : ℚ) : (r.push t v).cap = r.cap := rfl

@[simp] theorem SpscRing.push_mask (r : SpscRing) (t v : ℚ) : (r.push t v).mask = r.mask := rfl

@[simp] theorem SpscRing.push_head (r : SpscRing) (t v : ℚ) : (r.push t v).head = r.head + 1 := rfl

theorem SpscRing.push_tail (r : SpscRing) (t v : ℚ) :
    (r.push t v).tail =
      if r.head + 1 - r.tail > r.cap then r.head + 1 - r.cap else r.tail := rfl

theorem SpscRing.push_buf (r : SpscRing) (t v : ℚ) :
    (r.push t v).buf = r.buf.set (r.head &&& r.mask) (t, v) := rfl

@[simp] theorem SpscRing.pop_cap (r : SpscRing) : (r.pop_all).2.cap = r.cap := rfl

@[simp] theorem SpscRing.pop_mask (r : SpscRing) : (r.pop_all).2.mask = r.mask := rfl

@[simp] theorem SpscRing.pop_head (r : SpscRing) : (r.pop_all).2.head = r.head := rfl

@[simp] theorem SpscRing.pop_tail (r : SpscRing) : (r.pop_all).2.tail = r.head := rfl

@[simp] theorem SpscRing.pop_buf (r : SpscRing) : (r.pop_all).2.buf = r.buf := rfl

@[simp] theorem SpscRing.pushList_nil (r : SpscRing) : r.pushList [] = r := rfl

@[simp] theorem SpscRing.pushList_cons (r : SpscRing) (x : Sample) (xs : List Sample) :
    r.pushList (x :: xs) = (r.push x.1 x.2).pushList xs := rfl

/-- Masking with `2^k - 1` is reduction modulo `2^k` (why `next_pow2` rounds
the capacity up to a power of two). -/
theorem land_mask (x k : Nat) : x &&& (2 ^ k - 1) = x % 2 ^ k := by
  apply Nat.eq_of_testBit_eq
  intro i
  simp [Nat.testBit_land, Nat.testBit_mod_two_pow, Nat.testBit_two_pow_sub_one,
    Bool.and_comm]

theorem next_pow2_go_pow (fuel v : Nat) :
    ∀ p, (∃ k, p = 2 ^ k) → ∃ k, next_pow2_go fuel v p = 2 ^ k := by
  induction fuel with
  | zero => intro p hp; exact hp
  | succ fuel ih =>
    intro p hp
    rw [next_pow2_go]
    split
    · apply ih
      obtain ⟨k, rfl⟩ := hp
      exact ⟨k + 1, by ring⟩
    · exact hp

theorem next_pow2_go_ge (fuel v : Nat) :
    ∀ p, v ≤ p * 2 ^ fuel → v ≤ next_pow2_go fuel v p := by
  induction fuel with
  | zero => intro p h; simpa using h
  | succ fuel ih =>
    intro p h
    rw [next_pow2_go]
    split
    · apply ih
      calc v ≤ p * 2 ^ (fuel + 1) := h
        _ = p * 2 * 2 ^ fuel := by ring
    · omega

/-- The capacity chosen by the constructor is a power of two. -/
theorem next_pow2_is_pow (v : Nat) : ∃ k, next_pow2 v = 2 ^ k :=
  next_pow2_go_pow v v 1 ⟨0, rfl⟩

/-- The constructor rounds the requested capacity up. -/
theorem next_pow2_ge (v : Nat) : v ≤ next_pow2 v := by
  apply next_pow2_go_ge
  have h := Nat.lt_two_pow v
  omega

theorem next_pow2_pos (v : Nat) : 0 < next_pow2 v := by
  obtain ⟨k, h⟩ := next_pow2_is_pow v
  rw [h]
  exact Nat.two_pow_pos k

theorem SpscRing.WF.cap_pos {r : SpscRing} (h : r.WF) : 0 < r.cap := by
  obtain ⟨k, hk⟩ := h.pow
  rw [hk]
  exact Nat.two_pow_pos k

/-- In a well-formed ring the bit-mask indexing is modular indexing. -/
theorem SpscRing.WF.mask_mod {r : SpscRing} (h : r.WF) (x : Nat) :
    x &&& r.mask = x % r.cap := by
  obtain ⟨k, hk⟩ := h.pow
  rw [h.mask_eq, hk, land_mask]

theorem SpscRing.init_WF (c : Nat) : (SpscRing.init c).WF where
  pow := next_pow2_is_pow c
  mask_eq := rfl
  len := List.length_replicate _ _
  ht := Nat.le_refl 0
  bound := by simp [SpscRing.init]

theorem SpscRing.init_Window (c : Nat) : (SpscRing.init c).Window [] := by
  refine ⟨rfl, ?_⟩
  intro i h1 h2
  simp [SpscRing.init] at h2

/-- Two indices less than `cap` apart have different residues mod `cap`. -/
theorem mod_ne_of_between {cap i j : Nat} (hij : i < j) (hs : j - i < cap) :
    j % cap ≠ i % cap := by
  intro h
  have h0 : (j - i) % cap = 0 := Nat.sub_mod_eq_zero_of_mod_eq h
  have hd : cap ∣ (j - i) := Nat.dvd_of_mod_eq_zero h0
  have hle := Nat.le_of_dvd (by omega) hd
  omega

theorem SpscRing.push_tail_ge {r : SpscRing} (t v : ℚ) :
    r.head + 1 - r.cap ≤ (r.push t v).tail := by
  rw [SpscRing.push_tail]
  split <;> omega

theorem SpscRing.tail_le_push_tail {r : SpscRing} (t v : ℚ) :
    r.tail ≤ (r.push t v).tail := by
  rw [SpscRing.push_tail]
  split <;> omega

theorem SpscRing.push_WF {r : SpscRing} (h : r.WF) (t v : ℚ) : (r.push t v).WF := by
  have h1 := h.ht
  have h2 := h.bound
  refine ⟨h.pow, h.mask_eq, ?_, ?_, ?_⟩
  · rw [SpscRing.push_buf]
    simpa using h.len
  · rw [SpscRing.push_tail, SpscRing.push_head]
    split <;> omega
  · rw [SpscRing.push_tail, SpscRing.push_head, SpscRing.push_cap]
    split <;> omega

theorem SpscRing.push_Window {r : SpscRing} {P : List Sample} (hw : r.WF)
    (h : r.Window P) (t v : ℚ) : (r.push t v).Window (P ++ [(t, v)]) := by
  obtain ⟨hh, hbuf⟩ := h
  have hcap := hw.cap_pos
  have hlen := hw.len
  refine ⟨by simp [hh], ?_⟩
  intro i hti hih
  rw [SpscRing.push_head] at hih
  rw [SpscRing.push_cap, SpscRing.push_buf, hw.mask_mod]
  by_cases hi : i = r.head
  · rw [hi, hh]
    have hm : P.length % r.cap < r.buf.length := by
      rw [hlen]
      exact Nat.mod_lt _ hcap
    simp [List.getElem?_set_self hm, List.getElem?_append_right (Nat.le_refl P.length)]
  · have hlt : i < r.head := by omega
    have hge : r.head + 1 - r.cap ≤ (r.push t v).tail := SpscRing.push_tail_ge t v
    have hne : r.head % r.cap ≠ i % r.cap := mod_ne_of_between hlt (by omega)
    have htail : r.tail ≤ i := le_trans (SpscRing.tail_le_push_tail t v) hti
    rw [List.getD_eq_getElem?_getD, List.getElem?_set_ne hne,
      ← List.getD_eq_getElem?_getD, hbuf i htail hlt,
      List.getD_eq_getElem?_getD, List.getD_eq_getElem?_getD,
      List.getElem?_append_left (by omega : i < P.length)]

theorem SpscRing.pop_WF {r : SpscRing} (h : r.WF) : (r.pop_all).2.WF := by
  refine ⟨h.pow, h.mask_eq, h.len, ?_, ?_⟩ <;> simp

theorem SpscRing.pop_Window {r : SpscRing} {P : List Sample} (h : r.Window P) :
    (r.pop_all).2.Window P := by
  obtain ⟨hh, hbuf⟩ := h
  refine ⟨hh, ?_⟩
  intro i h1 h2
  rw [SpscRing.pop_tail] at h1
  rw [SpscRing.pop_head] at h2
  omega

/-- What `pop_all` returns: the push history from `tail` on. -/
theorem SpscRing.pop_all_fst {r : SpscRing} {P : List Sample} (hw : r.WF)
    (h : r.Window P) : (r.pop_all).1 = P.drop r.tail := by
  obtain ⟨hh, hbuf⟩ := h
  have hht := hw.ht
  apply List.ext_getElem
  · simp [SpscRing.pop_all, hh]
  · intro j hj1 hj2
    have hjc : j < r.head - r.tail := by
      simpa [SpscRing.pop_all] using hj1
    have hlt : r.tail + j < r.head := by omega
    have hlen : r.tail + j < P.length := by omega
    simp only [SpscRing.pop_all, List.getElem_map, List.getElem_range,
      List.getElem_drop]
    rw [hw.mask_mod, hbuf (r.tail + j) (by omega) hlt,
      List.getD_eq_getElem?_getD, List.getElem?_eq_getElem hlen]
    rfl

/-- A push on a ring whose `tail` sits exactly `min head cap` behind `head`
keeps that shape (`tail = head ∸ cap`). -/
theorem SpscRing.push_tail_full {r : SpscRing} (hw : r.WF) (t v : ℚ)
    (h : r.tail = r.head - r.cap) :
    (r.push t v).tail = (r.push t v).head - (r.push t v).cap := by
  have h1 := hw.ht
  rw [SpscRing.push_tail, SpscRing.push_head, SpscRing.push_cap]
  split <;> omega

theorem SpscRing.pushList_head (xs : List Sample) :
    ∀ r : SpscRing, (r.pushList xs).head = r.head + xs.length := by
  induction xs with
  | nil => intro r; simp
  | cons x xs ih =>
    intro r
    rw [SpscRing.pushList_cons, ih]
    simp
    omega

theorem SpscRing.pushList_cap (xs : List Sample) :
    ∀ r : SpscRing, (r.pushList xs).cap = r.cap := by
  induction xs with
  | nil => intro r; simp
  | cons x xs ih =>
    intro r
    rw [SpscRing.pushList_cons, ih, SpscRing.push_cap]

/-- Pushing a list into a ring that is "saturated or initial"
(`tail = head ∸ cap`) preserves well-formedness, extends the window by the
pushed samples, and keeps the saturated shape. -/
theorem SpscRing.pushList_inv (xs : List Sample) :
    ∀ (r : SpscRing) (P : List Sample), r.WF → r.Window P →
      r.tail = r.head - r.cap →
      (r.pushList xs).WF ∧ (r.pushList xs).Window (P ++ xs) ∧
      (r.pushList xs).tail = (r.pushList xs).head - (r.pushList xs).cap := by
  induction xs with
  | nil =>
    intro r P hw hwin htl
    simpa using ⟨hw, hwin, htl⟩
  | cons x xs ih =>
    intro r P hw hwin htl
    rw [SpscRing.pushList_cons]
    have hstep := ih (r.push x.1 x.2) (P ++ [x]) (SpscRing.push_WF hw x.1 x.2)
      (by simpa using SpscRing.push_Window hw hwin x.1 x.2)
      (SpscRing.push_tail_full hw x.1 x.2 htl)
    simpa using hstep

/-- The sequence `pop_all` returns after pushing `xs` into a fresh ring:
the push history from index `xs.length ∸ cap` on (the last
`min xs.length cap` samples, in push order). -/
theorem SpscRing.pushList_pop (c : Nat) (xs : List Sample) :
    ((SpscRing.init c).pushList xs).pop_all.1 =
      xs.drop (xs.length - (SpscRing.init c).cap) := by
  obtain ⟨hw, hwin, htl⟩ := SpscRing.pushList_inv xs (SpscRing.init c) []
    (SpscRing.init_WF c) (SpscRing.init_Window c) (by simp [SpscRing.init])
  rw [SpscRing.pop_all_fst hw (by simpa using hwin)]
  congr 1
  rw [htl, SpscRing.pushList_head, SpscRing.pushList_cap]
  simp [SpscRing.init]

/-- C1: drop-oldest correctness of the sample ring — pushing `C + k` samples
(`k > 0`, `C` the ring's capacity) into a fresh ring with no intervening
`pop_all` leaves exactly the last `C` samples readable, in push order; and
concretely, with capacity 8, pushing timestamps `0..11` with value =
timestamp makes `pop_all` return exactly `(4,4),…,(11,11)` in order. -/
theorem C1_drop_oldest (c k : Nat) (xs : List Sample) (hk : 0 < k)
    (hlen : xs.length = (SpscRing.init c).cap + k) :
    ((SpscRing.init c).pushList xs).pop_all.1 = xs.drop k ∧
    ((SpscRing.init 8).pushList
        [((0 : ℚ), (0 : ℚ)), (1, 1), (2, 2), (3, 3), (4, 4), (5, 5), (6, 6),
          (7, 7), (8, 8), (9, 9), (10, 10), (11, 11)]).pop_all.1 =
      [((4 : ℚ), (4 : ℚ)), (5, 5), (6, 6), (7, 7), (8, 8), (9, 9), (10, 10),
          (11, 11)] := by
  constructor
  · rw [SpscRing.pushList_pop, hlen]
    congr 1
    omega
  · decide

/-- Witness for C1 at the concrete scenario of the spec (capacity 8,
12 pushes, k = 4). -/
theorem C1_drop_oldest_witness :
    ((SpscRing.init 8).pushList
        [((0 : ℚ), (0 : ℚ)), (1, 1), (2, 2), (3, 3), (4, 4), (5, 5), (6, 6),
          (7, 7), (8, 8), (9, 9), (10, 10), (11, 11)]).pop_all.1 =
      ([((0 : ℚ), (0 : ℚ)), (1, 1), (2, 2), (3, 3), (4, 4), (5, 5), (6, 6),
          (7, 7), (8, 8), (9, 9), (10, 10), (11, 11)] : List Sample).drop 4 :=
  (C1_drop_oldest 8 4
    [((0 : ℚ), (0 : ℚ)), (1, 1), (2, 2), (3, 3), (4, 4), (5, 5), (6, 6),
      (7, 7), (8, 8), (9, 9), (10, 10), (11, 11)]
    (by decide) (by decide)).1

theorem runOps_WF (ops : List Op) :
    ∀ r : SpscRing, r.WF → (runOps r ops).1.WF := by
  induction ops with
  | nil => intro r h; exact h
  | cons op rest ih =>
    intro r h
    cases op with
    | push t v => exact ih _ (SpscRing.push_WF h t v)
    | popAll => exact ih _ (SpscRing.pop_WF h)

theorem runOps_cap (ops : List Op) :
    ∀ r : SpscRing, (runOps r ops).1.cap = r.cap := by
  induction ops with
  | nil => intro r; rfl
  | cons op rest ih =>
    intro r
    cases op with
    | push t v => rw [runOps, ih, SpscRing.push_cap]
    | popAll => rw [runOps, ih, SpscRing.pop_cap]

/-- C2: bounded memory — after any sequence of push/pop_all operations on a
ring constructed with requested capacity `c`, the unread span
`head − tail` never exceeds the ring's capacity; that capacity is
`next_pow2 c`, a power of two at least `c` (the constructor rounds up). -/
theorem C2_bounded_memory (c : Nat) (ops : List Op) :
    (runOps (SpscRing.init c) ops).1.head - (runOps (SpscRing.init c) ops).1.tail ≤
        (runOps (SpscRing.init c) ops).1.cap ∧
    (runOps (SpscRing.init c) ops).1.cap = next_pow2 c ∧
    (∃ k, next_pow2 c = 2 ^ k) ∧ c ≤ next_pow2 c := by
  refine ⟨(runOps_WF ops _ (SpscRing.init_WF c)).bound, ?_,
    next_pow2_is_pow c, next_pow2_ge c⟩
  rw [runOps_cap]
  rfl

theorem runOps_flatten_sublist (ops : List Op) :
    ∀ (r : SpscRing) (P : List Sample), r.WF → r.Window P →
      (runOps r ops).2.flatten <+ P.drop r.tail ++ pushedOf ops := by
  induction ops with
  | nil =>
    intro r P hw hwin
    simp [runOps]
  | cons op rest ih =>
    intro r P hw hwin
    have hle : r.tail ≤ P.length := hwin.1 ▸ hw.ht
    cases op with
    | push t v =>
      rw [runOps, pushedOf]
      have h1 := ih (r.push t v) (P ++ [(t, v)]) (SpscRing.push_WF hw t v)
        (SpscRing.push_Window hw hwin t v)
      have h2 : (P ++ [(t, v)]).drop ((r.push t v).tail) <+ P.drop r.tail ++ [(t, v)] := by
        have h3 : (P ++ [(t, v)]).drop ((r.push t v).tail) <+ (P ++ [(t, v)]).drop r.tail :=
          List.drop_sublist_drop_left _ (SpscRing.tail_le_push_tail t v)
        rwa [List.drop_append_of_le_length hle] at h3
      have h4 := List.Sublist.append h2 (List.Sublist.refl (pushedOf rest))
      have h5 : P.drop r.tail ++ [(t, v)] ++ pushedOf rest =
          P.drop r.tail ++ ((t, v) :: pushedOf rest) := by simp
      exact h1.trans (h5 ▸ h4)
    | popAll =>
      rw [runOps, pushedOf]
      have h1 := ih (r.pop_all).2 P (SpscRing.pop_WF hw) (SpscRing.pop_Window hwin)
      rw [SpscRing.pop_tail, hwin.1, List.drop_length, List.nil_append] at h1
      rw [List.flatten_cons, SpscRing.pop_all_fst hw hwin]
      exact List.Sublist.append (List.Sublist.refl _) h1

theorem runOps_each_contiguous (ops : List Op) :
    ∀ (r : SpscRing) (P : List Sample), r.WF → r.Window P →
      ∀ o ∈ (runOps r ops).2, ∃ pre post, pre ++ o ++ post = P ++ pushedOf ops := by
  induction ops with
  | nil =>
    intro r P hw hwin o ho
    simp [runOps] at ho
  | cons op rest ih =>
    intro r P hw hwin o ho
    cases op with
    | push t v =>
      rw [runOps] at ho
      obtain ⟨pre, post, hpp⟩ := ih _ _ (SpscRing.push_WF hw t v)
        (SpscRing.push_Window hw hwin t v) o ho
      refine ⟨pre, post, ?_⟩
      rw [hpp, pushedOf]
      simp
    | popAll =>
      rw [runOps, List.mem_cons] at ho
      rcases ho with h | h
      · refine ⟨P.take r.tail, pushedOf rest, ?_⟩
        rw [h, SpscRing.pop_all_fst hw hwin, pushedOf, List.take_append_drop]
      · obtain ⟨pre, post, hpp⟩ := ih _ _ (SpscRing.pop_WF hw)
          (SpscRing.pop_Window hwin) o h
        exact ⟨pre, post, by rw [hpp, pushedOf]⟩

/-- C3: order preservation and no duplication — for any interleaving of
pushes and pops starting from a fresh ring, (a) the concatenation of the
sequences returned by successive `pop_all` calls is a sublist (subsequence:
no reordering, no duplication) of the push order; (b) each individual
`pop_all` result is a contiguous run of the push order (hence in write
order); (c) a `pop_all` immediately following a `pop_all`, with nothing
pushed in between, returns the empty sequence. -/
theorem C3_order_preservation (c : Nat) (ops : List Op) :
    (runOps (SpscRing.init c) ops).2.flatten <+ pushedOf ops ∧
    (∀ o ∈ (runOps (SpscRing.init c) ops).2,
      ∃ pre post, pre ++ o ++ post = pushedOf ops) ∧
    (∀ r : SpscRing, ((r.pop_all).2.pop_all).1 = []) := by
  refine ⟨?_, ?_, ?_⟩
  · have h := runOps_flatten_sublist ops (SpscRing.init c) []
      (SpscRing.init_WF c) (SpscRing.init_Window c)
    simpa using h
  · intro o ho
    have h := runOps_each_contiguous ops (SpscRing.init c) []
      (SpscRing.init_WF c) (SpscRing.init_Window c) o ho
    simpa using h
  · intro r
    simp [SpscRing.pop_all]

/-- Witness for C3: pushing `(1,2)` and popping returns the single block
`[(1,2)]`, which is a contiguous run of the push order. -/
theorem C3_order_preservation_witness :
    ∃ pre post, pre ++ [((1 : ℚ), (2 : ℚ))] ++ post =
      pushedOf [Op.push 1 2, Op.popAll] :=
  (C3_order_preservation 1 [Op.push 1 2, Op.popAll]).2.1
    [((1 : ℚ), (2 : ℚ))] (by decide)

theorem runOps_timely_flatten (ops : List Op) :
    ∀ (r : SpscRing) (P : List Sample), r.WF → r.Window P →
      timely r.cap (r.head - r.tail) ops = true →
      (runOps r (ops ++ [Op.popAll])).2.flatten = P.drop r.tail ++ pushedOf ops := by
  induction ops with
  | nil =>
    intro r P hw hwin _
    rw [List.nil_append, runOps, runOps, pushedOf, List.flatten_cons,
      SpscRing.pop_all_fst hw hwin]
    simp
  | cons op rest ih =>
    intro r P hw hwin ht
    have hle : r.tail ≤ P.length := hwin.1 ▸ hw.ht
    have hth := hw.ht
    cases op with
    | push t v =>
      rw [timely, Bool.and_eq_true, decide_eq_true_eq] at ht
      obtain ⟨hk, ht'⟩ := ht
      have hnodrop : (r.push t v).tail = r.tail := by
        rw [SpscRing.push_tail]
        split <;> omega
      have hcount : (r.push t v).head - (r.push t v).tail = r.head - r.tail + 1 := by
        rw [SpscRing.push_head, hnodrop]
        omega
      have h1 := ih (r.push t v) (P ++ [(t, v)]) (SpscRing.push_WF hw t v)
        (SpscRing.push_Window hw hwin t v)
        (by rw [SpscRing.push_cap, hcount]; exact ht')
      rw [List.cons_append, runOps, h1, hnodrop, pushedOf,
        List.drop_append_of_le_length hle, List.append_assoc, List.singleton_append]
    | popAll =>
      rw [timely] at ht
      have h1 := ih (r.pop_all).2 P (SpscRing.pop_WF hw) (SpscRing.pop_Window hwin)
        (by rw [SpscRing.pop_cap, SpscRing.pop_head, SpscRing.pop_tail, Nat.sub_self]; exact ht)
      rw [SpscRing.pop_tail, hwin.1, List.drop_length, List.nil_append] at h1
      rw [List.cons_append, runOps, List.flatten_cons, h1,
        SpscRing.pop_all_fst hw hwin, pushedOf]

/-- C4: no loss under timely consumption — if `pop_all` is called at least
once per `cap` pushes (`timely`), then running the operations followed by a
final `pop_all` returns, across all `pop_all` calls concatenated, exactly
the pushed samples, in order: each exactly once, none dropped, none
repeated. -/
theorem C4_no_loss (c : Nat) (ops : List Op)
    (h : timely (SpscRing.init c).cap 0 ops = true) :
    (runOps (SpscRing.init c) (ops ++ [Op.popAll])).2.flatten = pushedOf ops := by
  have h1 := runOps_timely_flatten ops (SpscRing.init c) []
    (SpscRing.init_WF c) (SpscRing.init_Window c) h
  simpa using h1

/-- Witness for C4: requested capacity 1 (actual capacity 1), one push then
the final pop returns exactly the pushed sample. -/
theorem C4_no_loss_witness :
    (runOps (SpscRing.init 1) ([Op.push 5 6] ++ [Op.popAll])).2.flatten =
      pushedOf [Op.push 5 6] :=
  C4_no_loss 1 [Op.push 5 6] (by decide)

/-- C5: connect error handling — `connect(target)` fails with a
`ConnectionError` exactly when the target is unreachable/invalid (in this
simulated backend, exactly the sentinel port `"FAIL"`); otherwise it
records the port and moves the stream to `Connected`.  After a failing
connect, `is_connected()` is false, and the failure is fatal to that call
only: a later connect with a valid target succeeds. -/
theorem C5_connect (s : NativeShimmer) (target : String) :
    ((s.connect target).2 = some ShimmerError.connectionError ↔ target = "FAIL") ∧
    (target ≠ "FAIL" →
      (s.connect target).2 = none ∧
      (s.connect target).1.is_connected = true ∧
      (s.connect target).1.port = target) ∧
    (s.connect "FAIL").1.is_connected = false ∧
    (target ≠ "FAIL" →
      ((s.connect "FAIL").1.connect target).2 = none ∧
      ((s.connect "FAIL").1.connect target).1.is_connected = true) := by
  refine ⟨?_, ?_, ?_, ?_⟩
  · by_cases h : target = "FAIL" <;>
      simp [NativeShimmer.connect, h]
  · intro h
    simp [NativeShimmer.connect, NativeShimmer.is_connected, h]
  · simp [NativeShimmer.connect, NativeShimmer.is_connected]
  · intro h
    simp [NativeShimmer.connect, NativeShimmer.is_connected, h]

/-- Witness for C5: connecting a fresh controller to `"COM3"` succeeds,
reports connected, and records the port. -/
theorem C5_connect_witness :
    (NativeShimmer.mk0.connect "COM3").2 = none ∧
    (NativeShimmer.mk0.connect "COM3").1.is_connected = true ∧
    (NativeShimmer.mk0.connect "COM3").1.port = "COM3" :=
  (C5_connect NativeShimmer.mk0 "COM3").2.1 (by decide)

/-- C6: start error handling — `start_streaming()` fails with
`NotConnectedError` from the `Disconnected` state (never connected or
connect failed); it is a no-op when the stream is already `Running`
(in the spec's state machine, `Running` implies connected); otherwise it
spawns the owned sampling thread and moves the stream to `Running`. -/
theorem C6_start (s : NativeShimmer) :
    (s.connected = false →
      s.start_streaming = (s, some ShimmerError.notConnectedError)) ∧
    (s.connected = true → s.running = true → s.start_streaming = (s, none)) ∧
    (s.connected = true → s.running = false →
      (s.start_streaming).2 = none ∧
      (s.start_streaming).1.running = true ∧
      (s.start_streaming).1.threadJoinable = true ∧
      (s.start_streaming).1.spawns = s.spawns + 1 ∧
      (s.start_streaming).1.connected = true) := by
  refine ⟨?_, ?_, ?_⟩
  · intro h
    simp [NativeShimmer.start_streaming, h]
  · intro h1 h2
    simp [NativeShimmer.start_streaming, h1, h2]
  · intro h1 h2
    simp [NativeShimmer.start_streaming, h1, h2]

/-- Witness for C6: after a successful connect, starting a non-running
stream succeeds and moves it to `Running` with one spawned context. -/
theorem C6_start_witness :
    (((NativeShimmer.mk0.connect "COM3").1.start_streaming).2 = none) ∧
    (((NativeShimmer.mk0.connect "COM3").1.start_streaming).1.running = true) :=
  have h := (C6_start (NativeShimmer.mk0.connect "COM3").1).2.2 (by decide) (by decide)
  ⟨h.1, h.2.1⟩

theorem NativeShimmer.connect_fst_threadJoinable (s : NativeShimmer) (p : String) :
    (s.connect p).1.threadJoinable = s.threadJoinable := by
  rw [NativeShimmer.connect]
  split <;> rfl

theorem NativeShimmer.connect_fst_running (s : NativeShimmer) (p : String) :
    (s.connect p).1.running = s.running := by
  rw [NativeShimmer.connect]
  split <;> rfl

theorem NativeShimmer.stop_running (s : NativeShimmer) :
    s.stop_streaming.running = false := by
  rw [NativeShimmer.stop_streaming]
  split <;> rfl

theorem NativeShimmer.stop_threadJoinable (s : NativeShimmer) :
    s.stop_streaming.threadJoinable = false := by
  rw [NativeShimmer.stop_streaming]
  split
  · rfl
  · simp_all

theorem NativeShimmer.start_keeps_inv (s : NativeShimmer)
    (h : s.threadJoinable = s.running) :
    (s.start_streaming).1.threadJoinable = (s.start_streaming).1.running := by
  rw [NativeShimmer.start_streaming]
  split
  · exact h
  · split
    · exact h
    · rfl

/-- The lifecycle invariant `threadJoinable = running` holds in every state
reachable from the constructor by `connect`/`start`/`stop` calls. -/
theorem runLife_inv (ops : List LifeOp) :
    ∀ s : NativeShimmer, s.threadJoinable = s.running →
      (s.runLife ops).threadJoinable = (s.runLife ops).running := by
  induction ops with
  | nil => intro s h; exact h
  | cons op rest ih =>
    intro s h
    cases op with
    | connect p =>
      exact ih _ (by rw [NativeShimmer.connect_fst_threadJoinable,
        NativeShimmer.connect_fst_running]; exact h)
    | start => exact ih _ (NativeShimmer.start_keeps_inv s h)
    | stop =>
      exact ih _ (by rw [NativeShimmer.stop_running,
        NativeShimmer.stop_threadJoinable])

/-- C7: stop idempotence and lifecycle cleanliness — `stop_streaming()`
always succeeds (it returns no error by construction).  On a non-running
stream (in any state reachable from the constructor, `threadJoinable =
running`) it is a no-op that does not alter observable state; on a running
stream it clears `running`, joins the context, and leaves the stream
`Connected` (connection state, port, queue and spawn count unchanged).
Together with `start()` being a no-op when already `Running`, repeated
stop/start never spawns an extra execution context, and start immediately
followed by stop leaves no dangling context. -/
theorem C7_stop_idempotent (s : NativeShimmer)
    (hinv : s.threadJoinable = s.running) :
    (s.running = false → s.stop_streaming = s) ∧
    (s.running = true →
      s.stop_streaming.running = false ∧
      s.stop_streaming.threadJoinable = false ∧
      s.stop_streaming.connected = s.connected ∧
      s.stop_streaming.port = s.port ∧
      s.stop_streaming.queue = s.queue ∧
      s.stop_streaming.spawns = s.spawns) ∧
    (s.connected = true → s.running = true → s.start_streaming = (s, none)) ∧
    ((s.start_streaming).1.stop_streaming.threadJoinable = false ∧
      (s.start_streaming).1.stop_streaming.running = false) ∧
    (∀ ops : List LifeOp,
      (NativeShimmer.mk0.runLife ops).threadJoinable =
        (NativeShimmer.mk0.runLife ops).running) := by
  obtain ⟨port, conn, run, q, tj, sp⟩ := s
  dsimp only at hinv
  refine ⟨?_, ?_, ?_, ?_, ?_⟩
  · intro h
    dsimp only at h
    subst h
    subst hinv
    rfl
  · intro h
    dsimp only at h
    subst h
    subst hinv
    simp [NativeShimmer.stop_streaming]
  · intro h1 h2
    dsimp only at h1 h2
    simp [NativeShimmer.start_streaming, h1, h2]
  · exact ⟨NativeShimmer.stop_threadJoinable _, NativeShimmer.stop_running _⟩
  · intro ops
    exact runLife_inv ops NativeShimmer.mk0 rfl

/-- Witness for C7: stopping the freshly constructed (non-running)
controller changes nothing. -/
theorem C7_stop_idempotent_witness :
    NativeShimmer.mk0.stop_streaming = NativeShimmer.mk0 :=
  (C7_stop_idempotent NativeShimmer.mk0 rfl).1 rfl

/-- C8: frame staleness on source failure — if the frame source fails on
every acquisition for `N` consecutive cycles of the frame loop, the shared
frame buffer is never written in those cycles, so `get_latest_frame()`
keeps returning the last successfully acquired frame unchanged. -/
theorem C8_frame_staleness (w : NativeWebcam) (acqs : List (Option Frame))
    (h : ∀ a ∈ acqs, a = none) :
    w.run_cycles acqs = w ∧
    (w.run_cycles acqs).get_latest_frame = w.get_latest_frame := by
  have hid : w.run_cycles acqs = w := by
    induction acqs with
    | nil => rfl
    | cons a rest ih =>
      have ha : a = none := h a (List.mem_cons_self a rest)
      rw [NativeWebcam.run_cycles, List.foldl_cons, ha]
      exact ih fun b hb => h b (List.mem_cons_of_mem a hb)
  exact ⟨hid, by rw [hid]⟩

/-- Witness for C8: two consecutive failed acquisitions leave the fresh
webcam's buffer untouched. -/
theorem C8_frame_staleness_witness :
    (NativeWebcam.mk0 0).run_cycles [none, none] = NativeWebcam.mk0 0 ∧
    ((NativeWebcam.mk0 0).run_cycles [none, none]).get_latest_frame =
      (NativeWebcam.mk0 0).get_latest_frame :=
  C8_frame_staleness (NativeWebcam.mk0 0) [none, none] (by simp)

theorem loop_samples_ge (sin : ℚ → ℚ) :
    ∀ (ts : List ℚ) (phase : ℚ) (rng : Nat) (p : Sample),
      p ∈ loop_samples sin ts phase rng → 1 / 10 ≤ p.2 := by
  intro ts
  induction ts with
  | nil =>
    intro phase rng p hp
    simp [loop_samples] at hp
  | cons t ts ih =>
    intro phase rng p hp
    rw [loop_samples, List.mem_cons] at hp
    rcases hp with h | h
    · rw [h]
      exact le_max_left _ _
    · exact ih _ _ p h

/-- C10: implicit lower bound on sample values — every sample the sampling
loop pushes is clamped from below by `std::max(0.1, ·)`, so every
`(timestamp, value)` pair returned by `get_latest_samples()` after any run
of the loop has value ≥ 0.1, for every `sin` function, timestamp sequence,
initial phase and RNG state. -/
theorem C10_value_lower_bound (c : Nat) (sin : ℚ → ℚ) (ts : List ℚ)
    (phase : ℚ) (rng : Nat) (s : NativeShimmer)
    (hq : s.queue = (SpscRing.init c).pushList (loop_samples sin ts phase rng)) :
    (∀ p ∈ loop_samples sin ts phase rng, 1 / 10 ≤ p.2) ∧
    (∀ p ∈ (s.get_latest_samples).1, 1 / 10 ≤ p.2) := by
  refine ⟨fun p hp => loop_samples_ge sin ts phase rng p hp, ?_⟩
  intro p hp
  simp only [NativeShimmer.get_latest_samples] at hp
  rw [hq, SpscRing.pushList_pop] at hp
  exact loop_samples_ge sin ts phase rng p (List.drop_subset _ _ hp)

/-- Witness for C10: the single sample of a one-iteration run (with `sin`
the zero function) has value ≥ 0.1. -/
theorem C10_value_lower_bound_witness :
    1 / 10 ≤ (((0 : ℚ), gsr_value (fun _ => 0) 0 (lcg_next 0)) : Sample).2 :=
  (C10_value_lower_bound 1 (fun _ => 0) [0] 0 0
      { NativeShimmer.mk0 with
        queue := (SpscRing.init 1).pushList (loop_samples (fun _ => 0) [0] 0 0) }
      rfl).1 ((0 : ℚ), gsr_value (fun _ => 0) 0 (lcg_next 0))
      (by simp [loop_samples])

end NativeBackend
